import Mathlib

/-!
# Verification of the extract repository's core modules

Shallow embedding of the document-extraction pipeline:
`modules/file_processing.py`, `modules/file_ingestion.py`,
`modules/file_storage.py`, `modules/llm_manager.py` and
`modules/output_formatter.py`.

Bytes are modelled as `Fin 256`; byte strings as `List (Fin 256)`.
Python strings are Lean `String`s (sequences of Unicode scalar values).
External I/O (filesystem, S3, Azure, PDF/DOCX/PPTX parsing libraries) is
modelled as explicit environment records of functions; everything the
repository itself computes is embedded as an executable Lean function.
-/

set_option maxHeartbeats 1000000

namespace Extract

abbrev Byte := Fin 256

abbrev ByteSeq := List Byte

/-! ## Text codecs

Models of the Python codecs exercised by
`FileProcessingService._extract_from_txt`: `bytes.decode("utf-8")`,
`bytes.decode("latin-1")` and `bytes.decode("cp1252")`.  Each returns
`none` exactly when CPython raises `UnicodeDecodeError`. -/

/-- Is the byte a UTF-8 continuation byte (`0x80..0xBF`)? -/
def isCont (b : Byte) : Bool :=
  decide (0x80 ≤ b.val) && decide (b.val < 0xC0)

/-- Strict UTF-8 decoding: rejects stray continuation bytes, overlong
encodings, surrogate code points and code points above `0x10FFFF`,
exactly as CPython's `utf-8` codec does. -/
def utf8Decode : ByteSeq → Option (List Char)
  | [] => some []
  | b :: rest =>
    if b.val < 0x80 then
      (utf8Decode rest).map (fun cs => Char.ofNat b.val :: cs)
    else if b.val < 0xC2 then
      none
    else if b.val < 0xE0 then
      match rest with
      | c :: rest2 =>
        if isCont c then
          (utf8Decode rest2).map
            (fun cs => Char.ofNat ((b.val - 0xC0) * 0x40 + (c.val - 0x80)) :: cs)
        else none
      | [] => none
    else if b.val < 0xF0 then
      match rest with
      | c :: d :: rest2 =>
        let cp := (b.val - 0xE0) * 0x1000 + (c.val - 0x80) * 0x40 + (d.val - 0x80)
        if isCont c && isCont d && decide (0x800 ≤ cp) &&
            !(decide (0xD800 ≤ cp) && decide (cp < 0xE000)) then
          (utf8Decode rest2).map (fun cs => Char.ofNat cp :: cs)
        else none
      | _ => none
    else if b.val < 0xF5 then
      match rest with
      | c :: d :: e :: rest2 =>
        let cp := (b.val - 0xF0) * 0x40000 + (c.val - 0x80) * 0x1000 +
          (d.val - 0x80) * 0x40 + (e.val - 0x80)
        if isCont c && isCont d && isCont e && decide (0x10000 ≤ cp) &&
            decide (cp < 0x110000) then
          (utf8Decode rest2).map (fun cs => Char.ofNat cp :: cs)
        else none
      | _ => none
    else none

/-- Latin-1 (ISO-8859-1) decoding: every byte value is a valid code
point, so the decode always succeeds.  Kept `Option`-valued to mirror
the `try: ... except UnicodeDecodeError` attempt in the source. -/
def latin1DecodeAttempt (bs : ByteSeq) : Option (List Char) :=
  some (bs.map fun b => Char.ofNat b.val)

/-- Unicode mapping of the Windows-1252 bytes `0x80..0x9F`; `none` for
the five bytes that codec leaves undefined. -/
def cp1252Table (n : Nat) : Option Nat :=
  match n with
  | 0x80 => some 0x20AC
  | 0x82 => some 0x201A
  | 0x83 => some 0x0192
  | 0x84 => some 0x201E
  | 0x85 => some 0x2026
  | 0x86 => some 0x2020
  | 0x87 => some 0x2021
  | 0x88 => some 0x02C6
  | 0x89 => some 0x2030
  | 0x8A => some 0x0160
  | 0x8B => some 0x2039
  | 0x8C => some 0x0152
  | 0x8E => some 0x017D
  | 0x91 => some 0x2018
  | 0x92 => some 0x2019
  | 0x93 => some 0x201C
  | 0x94 => some 0x201D
  | 0x95 => some 0x2022
  | 0x96 => some 0x2013
  | 0x97 => some 0x2014
  | 0x98 => some 0x02DC
  | 0x99 => some 0x2122
  | 0x9A => some 0x0161
  | 0x9B => some 0x203A
  | 0x9C => some 0x0153
  | 0x9E => some 0x017E
  | 0x9F => some 0x0178
  | _ => none

/-- Windows-1252 decoding: ASCII and `0xA0..0xFF` map to themselves,
`0x80..0x9F` through `cp1252Table`; fails on the five undefined bytes. -/
def cp1252Decode : ByteSeq → Option (List Char)
  | [] => some []
  | b :: rest =>
    if b.val < 0x80 || decide (0xA0 ≤ b.val) then
      (cp1252Decode rest).map (fun cs => Char.ofNat b.val :: cs)
    else
      match cp1252Table b.val with
      | some cp => (cp1252Decode rest).map (fun cs => Char.ofNat cp :: cs)
      | none => none

/-! ## JSON values

The repository passes document metadata around as Python `dict`s and
serializes them with `json.dumps(..., ensure_ascii=False, indent=2)`
(`OutputFormatterService._format_as_json`).  JSON-serializable Python
values are modelled by `Json`; numbers are modelled as integers (the
claims never depend on float formatting, which is outside this
embedding). -/

inductive Json where
  | null
  | bool (b : Bool)
  | num (n : Int)
  | str (s : String)
  | arr (items : List Json)
  | obj (members : List (String × Json))

/-- First member of a JSON object with the given key, if any. -/
def lookupMember (j : Json) (key : String) : Option Json :=
  match j with
  | .obj members => (members.find? (fun m => m.1 == key)).map (·.2)
  | _ => none

/-! ## String helpers shared by several modules -/

/-- `Python str.split(sep)` for a one-character separator: splits on every
occurrence, keeping empty segments (`"".split(".") == [""]`). -/
def splitOnChar (sep : Char) : List Char → List (List Char)
  | [] => [[]]
  | c :: rest =>
    if c = sep then
      [] :: splitOnChar sep rest
    else
      match splitOnChar sep rest with
      | g :: gs => (c :: g) :: gs
      | [] => [[c]]

/-- ASCII lower-casing of one character (the fragment of Python
`str.lower` relevant to file extensions). -/
def asciiLower (c : Char) : Char :=
  if 'A' ≤ c ∧ c ≤ 'Z' then Char.ofNat (c.toNat + 32) else c

/-- `Python "x" in s` substring containment on character lists. -/
def hasSubstring (needle : List Char) : List Char → Bool
  | [] => needle.isEmpty
  | c :: rest => needle.isPrefixOf (c :: rest) || hasSubstring needle rest

/-! ## `modules/file_processing.py` -/

/-- Failures of `FileProcessingService` (`ValueError` messages in the
source, split by meaning). -/
inductive ProcErr where
  | unsupportedFormat (ext : String)
  | decodeError
  | extractorError (msg : String)
  deriving DecidableEq

/-- `ProcessedDocument` dataclass.  `processedAt` stands for the
`datetime.now()` timestamp (already in its ISO rendering, which is all
the formatter ever reads from it). -/
structure ProcessedDocument where
  content : String
  metadata : Json
  fileName : String
  fileSize : Nat
  fileType : String
  processedAt : String

/-- `FileProcessingService.SUPPORTED_EXTENSIONS`. -/
def SUPPORTED_EXTENSIONS : List String :=
  [".pdf", ".txt", ".docx", ".doc", ".pptx", ".ppt"]

/-- `FileProcessingService._get_file_extension`:
`"." + file_name.split(".")[-1].lower()`. -/
def getFileExtension (fileName : String) : String :=
  "." ++ String.mk ((((splitOnChar '.' fileName.data).getLast?).getD []).map asciiLower)

/-- `FileProcessingService._extract_from_txt`: tries UTF-8, Latin-1 and
Windows-1252 in that order, returning the first successful decoding and
failing (`"Não foi possível decodificar o arquivo TXT"`) only when all
three attempts fail. -/
def extractFromTxt (bs : ByteSeq) : Except ProcErr String :=
  match utf8Decode bs with
  | some cs => .ok (String.mk cs)
  | none =>
    match latin1DecodeAttempt bs with
    | some cs => .ok (String.mk cs)
    | none =>
      match cp1252Decode bs with
      | some cs => .ok (String.mk cs)
      | none => .error .decodeError

/-- External-library surface used by `FileProcessingService`: the PDF,
DOCX and PPTX text extractors (PyPDF2 / python-docx / python-pptx over
the raw bytes), the per-format extra metadata assembled in the `try`
block of `_extract_metadata` (empty when that block fails, since the
failure is caught and logged), the float `file_size_mb` entry
(`round(n / 1024**2, 2)`, outside the integer-numeric JSON model) and
the `datetime.now()` timestamp. -/
structure ExtractEnv where
  pdfText : ByteSeq → Except String String
  docxText : ByteSeq → Except String String
  pptxText : ByteSeq → Except String String
  formatExtra : ByteSeq → String → List (String × Json)
  sizeMb : Nat → Json
  now : String

/-- `FileProcessingService._extract_text`: dispatch on the extension. -/
def extractText (env : ExtractEnv) (fileContent : ByteSeq) (fileExtension : String) :
    Except ProcErr String :=
  if fileExtension = ".pdf" then
    (env.pdfText fileContent).mapError .extractorError
  else if fileExtension = ".txt" then
    extractFromTxt fileContent
  else if fileExtension = ".docx" ∨ fileExtension = ".doc" then
    (env.docxText fileContent).mapError .extractorError
  else if fileExtension = ".pptx" ∨ fileExtension = ".ppt" then
    (env.pptxText fileContent).mapError .extractorError
  else
    .error (.extractorError ("Extrator não implementado para: " ++ fileExtension))

/-- `FileProcessingService._extract_metadata`: base entries
(`file_name`, `file_extension`, `file_size_bytes`, `file_size_mb`)
extended with the per-format entries; a failure inside the per-format
`try` block degrades to the base entries (modelled by
`ExtractEnv.formatExtra` returning `[]`). -/
def extractMetadata (env : ExtractEnv) (fileContent : ByteSeq)
    (fileExtension fileName : String) : Json :=
  .obj ([("file_name", .str fileName),
         ("file_extension", .str fileExtension),
         ("file_size_bytes", .num (fileContent.length : Int)),
         ("file_size_mb", env.sizeMb fileContent.length)] ++
        env.formatExtra fileContent fileExtension)

/-- `FileProcessingService.process_file`: rejects unsupported extensions
before any extraction, then extracts text and metadata and assembles the
`ProcessedDocument`. -/
def processFile (env : ExtractEnv) (fileContent : ByteSeq) (fileName : String) :
    Except ProcErr ProcessedDocument :=
  let fileExtension := getFileExtension fileName
  if fileExtension ∉ SUPPORTED_EXTENSIONS then
    .error (.unsupportedFormat fileExtension)
  else
    match extractText env fileContent fileExtension with
    | .error e => .error e
    | .ok content =>
      .ok { content := content
            metadata := extractMetadata env fileContent fileExtension fileName
            fileName := fileName
            fileSize := fileContent.length
            fileType := fileExtension
            processedAt := env.now }

/-- Concrete extraction environment used for witness instances. -/
def demoEnv : ExtractEnv :=
  { pdfText := fun _ => .ok ""
    docxText := fun _ => .ok ""
    pptxText := fun _ => .ok ""
    formatExtra := fun _ _ => []
    sizeMb := fun _ => .num 0
    now := "2024-01-01T00:00:00" }

/-- The document `processFile demoEnv [104, 105] "a.txt"` produces: the
two bytes decode as UTF-8 to `"hi"`. -/
def demoDoc : ProcessedDocument :=
  { content := "hi"
    metadata := .obj [("file_name", .str "a.txt"),
                      ("file_extension", .str ".txt"),
                      ("file_size_bytes", .num 2),
                      ("file_size_mb", .num 0)]
    fileName := "a.txt"
    fileSize := 2
    fileType := ".txt"
    processedAt := "2024-01-01T00:00:00" }

/-! ## `modules/file_ingestion.py` -/

/-- `FileSource` enum. -/
inductive FileSource where
  | upload
  | localPath
  | networkPath
  | s3
  | azure
  deriving DecidableEq

/-- Failures of `FileIngestionService` (`ValueError` /
`FileNotFoundError` in the source). -/
inductive IngestErr where
  | invalidInput (msg : String)
  | notFound (path : String)
  | unsupportedSource
  deriving DecidableEq

/-- `os.path.basename` on POSIX paths: the final `/`-separated segment. -/
def basename (path : String) : String :=
  String.mk (((splitOnChar '/' path.data).getLast?).getD [])

/-- The filesystem seen by `FileIngestionService`: `readFile path` is
`some content` iff `os.path.exists(path)`, in which case opening the
path yields `content`. -/
structure IngestEnv where
  readFile : String → Option ByteSeq

/-- `FileIngestionService._read_from_path`: `FileNotFoundError` when the
path does not exist, otherwise the file's bytes and its basename. -/
def readFromPath (env : IngestEnv) (filePath : String) :
    Except IngestErr (ByteSeq × String) :=
  match env.readFile filePath with
  | none => .error (.notFound filePath)
  | some content => .ok (content, basename filePath)

/-- `asyncio.gather` over `_read_from_path` tasks, observed from the
caller: the list of all results when every read succeeds, the failure
of the first failing path otherwise (no partial list escapes). -/
def gatherPaths (env : IngestEnv) : List String → Except IngestErr (List (ByteSeq × String))
  | [] => .ok []
  | p :: rest =>
    match readFromPath env p with
    | .error e => .error e
    | .ok r =>
      match gatherPaths env rest with
      | .error e => .error e
      | .ok rs => .ok (r :: rs)

/-- `FileIngestionService.ingest_multiple_files`: upload batches zip the
two lists; path batches read every listed path; other sources are
rejected. -/
def ingestMultipleFiles (env : IngestEnv) (source : FileSource)
    (filePaths : Option (List String)) (fileContents : Option (List ByteSeq))
    (fileNames : Option (List String)) :
    Except IngestErr (List (ByteSeq × String)) :=
  if source = .upload then
    match fileContents, fileNames with
    | some contents, some names => .ok (contents.zip names)
    | _, _ => .error (.invalidInput "file_contents e file_names são obrigatórios para upload")
  else if source = .localPath ∨ source = .networkPath then
    match filePaths with
    | none => .error (.invalidInput "file_paths é obrigatório")
    | some paths => gatherPaths env paths
  else
    .error .unsupportedSource

/-- Concrete ingestion environment for witness instances: only the paths
`"a"` and `"c"` exist. -/
def demoIngest : IngestEnv :=
  { readFile := fun p => if p = "a" ∨ p = "c" then some [] else none }

/-! ## `modules/file_storage.py` -/

/-- `StorageDestination` enum. -/
inductive StorageDestination where
  | local
  | networkPath
  | s3
  | azure
  deriving DecidableEq

/-- The I/O surface of `FileStorageService`: local and network writes
(`_save_to_local` / `_save_to_network` directory creation plus
`aiofiles` write, returning the saved path or failing), and the S3 /
Azure uploads (`_save_to_s3` / `_save_to_azure`, taking the content,
file name, bucket or container — possibly absent, as
`save_multiple_files` forwards it unvalidated — and object key or blob
name, returning the URI or failing).  `defaultOutputPath` is
`settings.default_output_path`. -/
structure StorageEnv where
  defaultOutputPath : String
  writeLocal : String → String → String → Except String String
  writeNetwork : String → String → String → Except String String
  putS3 : String → String → Option String → String → Except String String
  putAzure : String → String → Option String → String → Except String String

/-- `FileStorageService.save_file`: dispatch on the destination with the
parameter validation of the source (`local` falls back to the default
output path; `network_path` requires `destination_path`; S3 and Azure
require their bucket/container and key/blob parameters). -/
def saveFile (env : StorageEnv) (content fileName : String)
    (destination : StorageDestination) (destinationPath : Option String)
    (bucketName objectKey containerName blobName : Option String) :
    Except String String :=
  match destination with
  | .local =>
    env.writeLocal (destinationPath.getD env.defaultOutputPath) fileName content
  | .networkPath =>
    match destinationPath with
    | none => .error "destination_path é obrigatório para network_path"
    | some p => env.writeNetwork p fileName content
  | .s3 =>
    match bucketName, objectKey with
    | some b, some k => env.putS3 content fileName (some b) k
    | _, _ => .error "bucket_name e object_key são obrigatórios para S3"
  | .azure =>
    match containerName, blobName with
    | some c, some b => env.putAzure content fileName (some c) b
    | _, _ => .error "container_name e blob_name são obrigatórios para Azure"

/-- The loop body of `FileStorageService.save_multiple_files` for one
`(content, file_name)` pair: S3 and Azure go straight to their upload
helpers with the (possibly empty, hence falsy) prefix applied to the
name; every other destination goes through `save_file`. -/
def saveItem (env : StorageEnv) (destination : StorageDestination)
    (destinationPath bucketName containerName pfx : Option String)
    (cf : String × String) : Except String String :=
  if destination = .s3 then
    let objectKey :=
      match pfx with
      | some pr => if pr ≠ "" then pr ++ "/" ++ cf.2 else cf.2
      | none => cf.2
    env.putS3 cf.1 cf.2 bucketName objectKey
  else if destination = .azure then
    let blobName :=
      match pfx with
      | some pr => if pr ≠ "" then pr ++ "/" ++ cf.2 else cf.2
      | none => cf.2
    env.putAzure cf.1 cf.2 containerName blobName
  else
    saveFile env cf.1 cf.2 destination destinationPath none none none none

/-- `FileStorageService.save_multiple_files`: iterates over the pairs,
appending each successfully saved location and skipping (after logging)
any pair whose save raises. -/
def saveMultipleFiles (env : StorageEnv) (files : List (String × String))
    (destination : StorageDestination)
    (destinationPath bucketName containerName pfx : Option String) : List String :=
  files.foldl
    (fun savedPaths cf =>
      match saveItem env destination destinationPath bucketName containerName pfx cf with
      | .ok path => savedPaths ++ [path]
      | .error _ => savedPaths)
    []

/-- Concrete storage environment for witness instances: the local write
of `"b.txt"` fails, every other local write succeeds. -/
def demoStorage : StorageEnv :=
  { defaultOutputPath := "/out"
    writeLocal := fun dir name _ =>
      if name = "b.txt" then .error "disk full" else .ok (dir ++ "/" ++ name)
    writeNetwork := fun _ _ _ => .error "unreachable network"
    putS3 := fun _ _ _ _ => .error "no aws credentials"
    putAzure := fun _ _ _ _ => .error "no azure credentials" }

/-! ## `modules/llm_manager.py` -/

/-- The configuration fields of `config.settings.Settings` read by
`LLMManager.get_provider`; every one is `Optional[str]` coming out of
`_get_secret`. -/
structure LLMSettings where
  openaiApiKey : Option String
  openaiBaseUrl : Option String
  anthropicApiKey : Option String
  anthropicBaseUrl : Option String
  ollamaBaseUrl : Option String
  awsAccessKeyId : Option String
  awsSecretAccessKey : Option String
  awsRegion : Option String
  deriving DecidableEq

/-- A constructed provider instance: the backend it talks to together
with the configuration it captured at construction time
(`OpenAIProvider`, `AnthropicProvider`, `OllamaProvider`,
`BedrockProvider`). -/
inductive Provider where
  | openai (apiKey baseUrl : Option String)
  | anthropic (apiKey baseUrl : Option String)
  | ollama (baseUrl : Option String)
  | bedrock (awsAccessKeyId awsSecretAccessKey awsRegion : Option String)
  deriving DecidableEq

/-- Failure of `LLMManager.get_provider` (`ValueError` in the source). -/
inductive LLMErr where
  | unsupportedProvider (name : String)
  deriving DecidableEq

/-- The provider cache `LLMManager._providers`, keyed by lower-cased
provider name. -/
abbrev ProviderCache := List (String × Provider)

/-- `LLMManager.get_provider`: lower-cases the name, returns the cached
instance when present, otherwise constructs the provider from the
process-wide settings, stores it in the cache and returns it; any other
name fails with the unsupported-provider error. -/
def getProvider (settings : LLMSettings) (cache : ProviderCache)
    (providerName : String) : Except LLMErr (Provider × ProviderCache) :=
  let n := String.mk (providerName.data.map asciiLower)
  match cache.lookup n with
  | some p => .ok (p, cache)
  | none =>
    if n = "openai" then
      let p := Provider.openai settings.openaiApiKey settings.openaiBaseUrl
      .ok (p, (n, p) :: cache)
    else if n = "anthropic" then
      let p := Provider.anthropic settings.anthropicApiKey settings.anthropicBaseUrl
      .ok (p, (n, p) :: cache)
    else if n = "ollama" then
      let p := Provider.ollama settings.ollamaBaseUrl
      .ok (p, (n, p) :: cache)
    else if n = "bedrock" then
      let p := Provider.bedrock settings.awsAccessKeyId settings.awsSecretAccessKey
        settings.awsRegion
      .ok (p, (n, p) :: cache)
    else
      .error (.unsupportedProvider n)

/-- Concrete settings for witness instances. -/
def demoSettings : LLMSettings :=
  { openaiApiKey := some "sk-demo"
    openaiBaseUrl := some "https://api.openai.com/v1"
    anthropicApiKey := none
    anthropicBaseUrl := some "https://api.anthropic.com"
    ollamaBaseUrl := some "http://localhost:11434"
    awsAccessKeyId := none
    awsSecretAccessKey := none
    awsRegion := some "us-east-1" }

/-- Splits a Python format replacement field: consumes characters up to
the closing brace, returning the field text and the remainder, or
`none` when the brace is never closed. -/
def fieldSplit (acc : List Char) : List Char → Option (List Char × List Char)
  | [] => none
  | c :: rest =>
    if c = '}' then some (acc.reverse, rest)
    else fieldSplit (c :: acc) rest

/-- The fragment of Python `str.format(content=content)` exercised by
`LLMManager.process_with_llm`: `{{`/`}}` render literal braces,
`{content}` substitutes the keyword argument, any other replacement
field or stray brace raises (`KeyError` / `ValueError`), every other
character passes through.  Conversion and format-spec suffixes
(`{content!r}`, `{content:>10}`) are not modelled; they would be parsed
here as a field other than `content` and fail.  The fuel argument is an
upper bound on recursion depth; one unit per consumed character
suffices. -/
def formatScan (content : String) : Nat → List Char → Option (List Char)
  | 0, _ => none
  | _ + 1, [] => some []
  | fuel + 1, c :: cs =>
    if c = '{' then
      match cs with
      | '{' :: rest => (formatScan content fuel rest).map (fun out => '{' :: out)
      | _ =>
        match fieldSplit [] cs with
        | some (field, rest) =>
          if field = "content".data then
            (formatScan content fuel rest).map (fun out => content.data ++ out)
          else none
        | none => none
    else if c = '}' then
      match cs with
      | '}' :: rest => (formatScan content fuel rest).map (fun out => '}' :: out)
      | _ => none
    else
      (formatScan content fuel cs).map (fun out => c :: out)

/-- `prompt_template.format(content=content)`, `none` when Python would
raise. -/
def pyFormatContent (template content : String) : Option String :=
  (formatScan content (template.length + 1) template.data).map String.mk

/-- The default prompt of `LLMManager.process_with_llm` when no template
is given. -/
def defaultPromptFor (content : String) : String :=
  "Analise o seguinte documento e forneça um resumo detalhado:\n\n" ++ content

/-- The prompt construction of `LLMManager.process_with_llm`.  The
source guards on Python truthiness (`if prompt_template:`), so both an
absent and an empty template select the default prompt; a template
containing the substring `"{content}"` goes through `str.format`
(`none` models the raised exception); any other template gets the
content appended after a `"Documento:"` label. -/
def buildPrompt (content : String) (promptTemplate : Option String) : Option String :=
  match promptTemplate with
  | some t =>
    if t = "" then some (defaultPromptFor content)
    else if hasSubstring "{content}".data t.data then pyFormatContent t content
    else some (t ++ "\n\nDocumento:\n" ++ content)
  | none => some (defaultPromptFor content)

/-- `LLMManager.process_with_llm` with the resolved provider's
`generate_response` abstracted as a function of the prompt: builds the
prompt and forwards it. -/
def processWithLLM (generate : String → String) (content : String)
    (promptTemplate : Option String) : Option String :=
  (buildPrompt content promptTemplate).map generate

/-! ## `modules/output_formatter.py` — JSON serialization

Model of `json.dumps(data, ensure_ascii=False, indent=2)`: 2-space
indentation, `", "`-free item separators (`",\n"` with indentation),
`": "` key separator, short escapes for `\" \\ \b \f \n \r \t`, a
`\u00xx` escape for the remaining control characters, and every
character from `0x20` up — ASCII or not — emitted verbatim. -/

/-- Lower-case hexadecimal digit, for `n < 16`. -/
def hexDigit (n : Nat) : Char :=
  match n with
  | 0 => '0' | 1 => '1' | 2 => '2' | 3 => '3' | 4 => '4'
  | 5 => '5' | 6 => '6' | 7 => '7' | 8 => '8' | 9 => '9'
  | 10 => 'a' | 11 => 'b' | 12 => 'c' | 13 => 'd' | 14 => 'e'
  | _ => 'f'

/-- JSON escaping of one character, as CPython's `json` encoder does
with `ensure_ascii=False`. -/
def escapeChar (c : Char) : List Char :=
  if c = '"' then ['\\', '"']
  else if c = '\\' then ['\\', '\\']
  else if c = '\x08' then ['\\', 'b']
  else if c = '\x0c' then ['\\', 'f']
  else if c = '\n' then ['\\', 'n']
  else if c = '\r' then ['\\', 'r']
  else if c = '\t' then ['\\', 't']
  else if c.toNat < 0x20 then
    ['\\', 'u', '0', '0', hexDigit (c.toNat / 16), hexDigit (c.toNat % 16)]
  else [c]

/-- JSON escaping of a whole string (without the enclosing quotes). -/
def escapeString (s : String) : List Char :=
  s.data.flatMap escapeChar

/-- A serialized JSON string literal. -/
def serStr (s : String) : List Char :=
  '"' :: (escapeString s ++ ['"'])

/-- Decimal digits of a natural number, most significant first. -/
def natChars (n : Nat) : List Char :=
  if _h : n < 10 then [hexDigit n]
  else natChars (n / 10) ++ [hexDigit (n % 10)]
  termination_by n
  decreasing_by exact Nat.div_lt_self (by omega) (by omega)

/-- Python `str(int)`: decimal digits with a leading minus sign when
negative. -/
def intChars (n : Int) : List Char :=
  if n < 0 then '-' :: natChars n.natAbs else natChars n.natAbs

/-- `n` spaces of indentation. -/
def nspaces (n : Nat) : List Char :=
  List.replicate n ' '

mutual

/-- `json.dumps(v, ensure_ascii=False, indent=2)` at nesting depth `d`,
as a character list. -/
def serJson (d : Nat) : Json → List Char
  | .num n => intChars n
  | .null => ['n', 'u', 'l', 'l']
  | .str s => serStr s
  | .bool false => ['f', 'a', 'l', 's', 'e']
  | .arr [] => ['[', ']']
  | .bool true => ['t', 'r', 'u', 'e']
  | .arr (x :: xs) =>
    '[' :: '\n' :: (serItems d x xs ++ '\n' :: (nspaces (2 * d) ++ [']']))
  | .obj [] => ['{', '}']
  | .obj (m :: ms) =>
    '{' :: '\n' :: (serMembers d m ms ++ '\n' :: (nspaces (2 * d) ++ ['}']))
  termination_by v => sizeOf v

/-- The comma-and-newline separated items of a non-empty array, each on
its own indented line. -/
def serItems (d : Nat) (x : Json) (xs : List Json) : List Char :=
  nspaces (2 * (d + 1)) ++ (serJson (d + 1) x ++
    match xs with
    | [] => []
    | y :: ys => ',' :: '\n' :: serItems d y ys)
  termination_by sizeOf x + sizeOf xs
  decreasing_by
  · cases xs <;> simp
  · simp
    omega

/-- The members of a non-empty object, `"key": value` per line. -/
def serMembers (d : Nat) (m : String × Json) (ms : List (String × Json)) : List Char :=
  nspaces (2 * (d + 1)) ++ (serStr m.1 ++ ':' :: ' ' :: (serJson (d + 1) m.2 ++
    match ms with
    | [] => []
    | m' :: ms' => ',' :: '\n' :: serMembers d m' ms'))
  termination_by sizeOf m + sizeOf ms
  decreasing_by
  · obtain ⟨k, v⟩ := m
    simp
    omega
  · simp
    omega

end

/-! ### A JSON parser

`json.loads` on the fragment of JSON the formatter emits (no fractional
or exponent number forms, which the integer-numeric model never
produces, and no surrogate-pair `\u` escapes, which `ensure_ascii=False`
never emits for valid scalar values). -/

/-- Drop leading JSON whitespace. -/
def skipWs : List Char → List Char
  | [] => []
  | c :: rest =>
    if c = ' ' ∨ c = '\n' ∨ c = '\t' ∨ c = '\r' then skipWs rest
    else c :: rest

/-- Value of one hexadecimal digit. -/
def hexVal (c : Char) : Option Nat :=
  if '0' ≤ c ∧ c ≤ '9' then some (c.toNat - 48)
  else if 'a' ≤ c ∧ c ≤ 'f' then some (c.toNat - 87)
  else if 'A' ≤ c ∧ c ≤ 'F' then some (c.toNat - 55)
  else none

/-- The single-character JSON escapes. -/
def unescapeShort (e : Char) : Option Char :=
  if e = '"' then some '"'
  else if e = '\\' then some '\\'
  else if e = '/' then some '/'
  else if e = 'b' then some '\x08'
  else if e = 'f' then some '\x0c'
  else if e = 'n' then some '\n'
  else if e = 'r' then some '\r'
  else if e = 't' then some '\t'
  else none

/-- Parses the body of a JSON string literal after its opening quote,
returning the decoded characters and the input after the closing
quote. -/
def parseStringBody : List Char → Option (List Char × List Char)
  | [] => none
  | c :: rest =>
    if c = '"' then some ([], rest)
    else if c = '\\' then
      match rest with
      | [] => none
      | e :: rest1 =>
        if e = 'u' then
          match rest1 with
          | h1 :: h2 :: h3 :: h4 :: rest2 =>
            match hexVal h1, hexVal h2, hexVal h3, hexVal h4 with
            | some a, some b, some c', some d =>
              (parseStringBody rest2).map
                (fun p => (Char.ofNat (a * 4096 + b * 256 + c' * 16 + d) :: p.1, p.2))
            | _, _, _, _ => none
          | _ => none
        else
          match unescapeShort e with
          | some u => (parseStringBody rest1).map (fun p => (u :: p.1, p.2))
          | none => none
    else
      (parseStringBody rest).map (fun p => (c :: p.1, p.2))

/-- Numeric value of a decimal digit character. -/
def digitVal (c : Char) : Nat :=
  c.toNat - 48

/-- Parses a non-empty run of decimal digits. -/
def parseDigits (l : List Char) : Option (Nat × List Char) :=
  let ds := l.takeWhile (fun c => c.isDigit)
  if ds.isEmpty then none
  else some (ds.foldl (fun a c => a * 10 + digitVal c) 0, l.drop ds.length)

mutual

/-- Parses one JSON value (input already stripped of leading
whitespace).  The fuel bounds recursion depth; see `parseJson`. -/
def parseValue : Nat → List Char → Option (Json × List Char)
  | 0, _ => none
  | _ + 1, [] => none
  | fuel + 1, c :: rest =>
    if c = '[' then
      (parseItems fuel (skipWs rest)).map (fun p => (Json.arr p.1, p.2))
    else if c = '{' then
      (parseMembers fuel (skipWs rest)).map (fun p => (Json.obj p.1, p.2))
    else if c = '"' then
      (parseStringBody rest).map (fun p => (Json.str (String.mk p.1), p.2))
    else if c = 't' then
      match rest with
      | 'r' :: 'u' :: 'e' :: r => some (Json.bool true, r)
      | _ => none
    else if c = 'f' then
      match rest with
      | 'a' :: 'l' :: 's' :: 'e' :: r => some (Json.bool false, r)
      | _ => none
    else if c = 'n' then
      match rest with
      | 'u' :: 'l' :: 'l' :: r => some (Json.null, r)
      | _ => none
    else if c = '-' then
      (parseDigits rest).map (fun p => (Json.num (-(p.1 : Int)), p.2))
    else
      (parseDigits (c :: rest)).map (fun p => (Json.num (p.1 : Int), p.2))

/-- Parses array items up to and including the closing bracket (input
stripped of leading whitespace). -/
def parseItems : Nat → List Char → Option (List Json × List Char)
  | 0, _ => none
  | _ + 1, [] => none
  | fuel + 1, c :: rest =>
    if c = ']' then some ([], rest)
    else
      match parseValue fuel (c :: rest) with
      | none => none
      | some (v, r) =>
        match skipWs r with
        | ',' :: r2 =>
          (parseItems fuel (skipWs r2)).map (fun p => (v :: p.1, p.2))
        | ']' :: r2 => some ([v], r2)
        | _ => none

/-- Parses object members up to and including the closing brace (input
stripped of leading whitespace). -/
def parseMembers : Nat → List Char → Option (List (String × Json) × List Char)
  | 0, _ => none
  | _ + 1, [] => none
  | fuel + 1, c :: rest =>
    if c = '}' then some ([], rest)
    else if c = '"' then
      match parseStringBody rest with
      | none => none
      | some (kcs, r) =>
        match skipWs r with
        | ':' :: r2 =>
          match parseValue fuel (skipWs r2) with
          | none => none
          | some (v, r3) =>
            match skipWs r3 with
            | ',' :: r4 =>
              (parseMembers fuel (skipWs r4)).map
                (fun p => ((String.mk kcs, v) :: p.1, p.2))
            | '}' :: r4 => some ([(String.mk kcs, v)], r4)
            | _ => none
        | _ => none
    else none

end

/-- `json.loads`: parses a complete JSON document, requiring only
whitespace after the value.  One unit of fuel per input character is
always sufficient, since every recursive step consumes input. -/
def parseJson (s : String) : Option Json :=
  match parseValue (s.length + 1) (skipWs s.data) with
  | some (v, rest) => if skipWs rest = [] then some v else none
  | none => none

/-- The `data` dict assembled by
`OutputFormatterService._format_as_json`. -/
def jsonOfDocument (doc : ProcessedDocument) : Json :=
  .obj [("file_name", .str doc.fileName),
        ("file_type", .str doc.fileType),
        ("file_size", .num (doc.fileSize : Int)),
        ("processed_at", .str doc.processedAt),
        ("content", .str doc.content),
        ("metadata", doc.metadata)]

/-- `OutputFormatterService._format_as_json`. -/
def formatAsJson (doc : ProcessedDocument) : String :=
  String.mk (serJson 0 (jsonOfDocument doc))

/-- The XML, CSV and TXT renderers of `OutputFormatterService`,
abstracted: the claims under verification only inspect the JSON
branch. -/
structure FormatterEnv where
  xml : ProcessedDocument → String
  csv : ProcessedDocument → String
  txt : ProcessedDocument → String

/-- `OutputFormatterService.format_output`: lower-cases the requested
format and dispatches, rejecting anything outside
`{json, xml, csv, txt}`. -/
def formatOutput (env : FormatterEnv) (doc : ProcessedDocument)
    (outputFormat : String) : Except String String :=
  let f := String.mk (outputFormat.data.map asciiLower)
  if f = "json" then .ok (formatAsJson doc)
  else if f = "xml" then .ok (env.xml doc)
  else if f = "csv" then .ok (env.csv doc)
  else if f = "txt" then .ok (env.txt doc)
  else .error ("Formato não suportado: " ++ f)

mutual

/-- Upper bound on the recursion depth `parseValue` needs to re-parse a
serialized value. -/
def jweight : Json → Nat
  | .num _ => 1
  | .str _ => 1
  | .bool _ => 1
  | .null => 1
  | .arr (x :: xs) => 1 + iweight x xs
  | .arr [] => 2
  | .obj (m :: ms) => 1 + mweight m ms
  | .obj [] => 2
  termination_by v => sizeOf v

/-- Recursion-depth bound for `parseItems` on a non-empty item list. -/
def iweight (x : Json) (xs : List Json) : Nat :=
  match xs with
  | [] => 1 + jweight x
  | y :: ys => 1 + jweight x + iweight y ys
  termination_by sizeOf x + sizeOf xs
  decreasing_by
  all_goals simp
  all_goals omega

/-- Recursion-depth bound for `parseMembers` on a non-empty member
list. -/
def mweight (m : String × Json) (ms : List (String × Json)) : Nat :=
  match ms with
  | [] => 1 + jweight m.2
  | m' :: ms' => 1 + jweight m.2 + mweight m' ms'
  termination_by sizeOf m + sizeOf ms
  decreasing_by
  all_goals simp_wf
  all_goals obtain ⟨k, v⟩ := m
  all_goals simp
  all_goals omega

end

/-- The character immediately following a serialized value inside a
`json.dumps` rendering, when any: a separator comma or a newline.  Used
to show the parser never reads past a value. -/
def sepTail : List Char → Prop
  | [] => True
  | c :: _ => c = ',' ∨ c = '\n'

/-!
# Theorems

The claims about the repository, preceded by the helper lemmas their
proofs share.
-/

/-! ## Claims about `file_processing` -/

/-- **C9.** The `DecodeError` branch of plain-text extraction is
unreachable: the Latin-1 attempt (the second encoding tried) succeeds on
every byte sequence, because every byte value is a valid Latin-1 code
point, so `_extract_from_txt` always returns text and never reaches the
"all encodings exhausted" error. -/
theorem extractFromTxt_total (bs : ByteSeq) :
    latin1DecodeAttempt bs = some (bs.map fun b => Char.ofNat b.val) ∧
    ∃ s, extractFromTxt bs = .ok s := by
  refine ⟨rfl, ?_⟩
  unfold extractFromTxt
  cases hu : utf8Decode bs with
  | some cs => exact ⟨String.mk cs, rfl⟩
  | none =>
    refine ⟨String.mk (bs.map fun b => Char.ofNat b.val), ?_⟩
    simp [latin1DecodeAttempt]

/-- **C4.** Plain-text extraction tries UTF-8, then Latin-1, then
Windows-1252, in that order, returning the first success and failing
with the decode error only when all three attempts fail; in particular
any byte sequence that is invalid UTF-8 decodes via the second (Latin-1)
attempt. -/
theorem extractFromTxt_encoding_order (bs : ByteSeq) :
    (∀ cs, utf8Decode bs = some cs → extractFromTxt bs = .ok (String.mk cs)) ∧
    (utf8Decode bs = none →
      extractFromTxt bs = .ok (String.mk (bs.map fun b => Char.ofNat b.val))) ∧
    (extractFromTxt bs = .error .decodeError ↔
      utf8Decode bs = none ∧ latin1DecodeAttempt bs = none ∧ cp1252Decode bs = none) := by
  refine ⟨?_, ?_, ?_⟩
  · intro cs hu
    unfold extractFromTxt
    rw [hu]
  · intro hu
    unfold extractFromTxt
    rw [hu]
    rfl
  · constructor
    · intro h
      unfold extractFromTxt at h
      cases hu : utf8Decode bs <;> rw [hu] at h <;> simp [latin1DecodeAttempt] at h
    · intro ⟨_, h2, _⟩
      cases h2

/-- Witness for C4: the single byte `0xFF` is invalid UTF-8, and `.txt`
extraction returns its Latin-1 decoding `"ÿ"`. -/
theorem extractFromTxt_encoding_order_witness :
    utf8Decode [255] = none ∧
    extractFromTxt [255] = .ok (String.mk [Char.ofNat 255]) := by
  have h : utf8Decode [255] = none := rfl
  exact ⟨h, (extractFromTxt_encoding_order [255]).2.1 h⟩

/-- **C1.** `process_file` rejects any input whose derived extension is
outside the supported set with the unsupported-format error, before any
extraction is attempted (the result does not depend on the extraction
environment at all), and every successfully returned document's
`file_type` lies in the supported set. -/
theorem processFile_rejects_unsupported (env env2 : ExtractEnv) (bs : ByteSeq)
    (name : String) (h : getFileExtension name ∉ SUPPORTED_EXTENSIONS) :
    processFile env bs name = .error (.unsupportedFormat (getFileExtension name)) ∧
    processFile env bs name = processFile env2 bs name ∧
    ∀ (env3 : ExtractEnv) (bs3 : ByteSeq) (name3 : String) (doc : ProcessedDocument),
      processFile env3 bs3 name3 = .ok doc → doc.fileType ∈ SUPPORTED_EXTENSIONS := by
  refine ⟨?_, ?_, ?_⟩
  · unfold processFile
    rw [if_pos h]
  · unfold processFile
    rw [if_pos h, if_pos h]
  · intro env3 bs3 name3 doc hdoc
    unfold processFile at hdoc
    by_cases hm : getFileExtension name3 ∈ SUPPORTED_EXTENSIONS
    · rw [if_neg (by simpa using hm)] at hdoc
      cases hext : extractText env3 bs3 (getFileExtension name3) <;> rw [hext] at hdoc
      · cases hdoc
      · cases hdoc
        simpa using hm
    · rw [if_pos hm] at hdoc
      cases hdoc

/-- Witness for C1: `"notes.md"` has derived extension `".md"`, which is
unsupported, and processing fails with exactly that error. -/
theorem processFile_rejects_unsupported_witness :
    getFileExtension "notes.md" ∉ SUPPORTED_EXTENSIONS ∧
    processFile demoEnv [] "notes.md" = .error (.unsupportedFormat ".md") := by
  have h : getFileExtension "notes.md" ∉ SUPPORTED_EXTENSIONS := by decide
  exact ⟨h, (processFile_rejects_unsupported demoEnv demoEnv [] "notes.md" h).1⟩

/-- **C8.** Every successfully processed document records the derived
(lower-cased) extension as its `file_type`, the byte length of the input
as its `file_size`, and its content deterministically: a second call
with the same bytes and name yields the same content. -/
theorem processFile_success_fields (env : ExtractEnv) (bs : ByteSeq) (name : String)
    (doc : ProcessedDocument) (h : processFile env bs name = .ok doc) :
    doc.fileType = getFileExtension name ∧
    doc.fileSize = bs.length ∧
    ∀ doc2, processFile env bs name = .ok doc2 → doc2.content = doc.content := by
  unfold processFile at h
  by_cases hm : getFileExtension name ∈ SUPPORTED_EXTENSIONS
  · rw [if_neg (by simpa using hm)] at h
    cases hext : extractText env bs (getFileExtension name) <;> rw [hext] at h
    · cases h
    · cases h
      refine ⟨rfl, rfl, ?_⟩
      intro doc2 h2
      unfold processFile at h2
      rw [if_neg (by simpa using hm), hext] at h2
      cases h2
      rfl
  · rw [if_pos hm] at h
    cases h

/-- Witness for C8: the UTF-8 bytes of `"hi"` under the name `"a.txt"`
succeed and produce `demoDoc`, whose fields satisfy the claim. -/
theorem processFile_success_fields_witness :
    processFile demoEnv [104, 105] "a.txt" = .ok demoDoc ∧
    demoDoc.fileType = getFileExtension "a.txt" ∧
    demoDoc.fileSize = 2 := by
  have h : processFile demoEnv [104, 105] "a.txt" = .ok demoDoc := rfl
  exact ⟨h, (processFile_success_fields demoEnv [104, 105] "a.txt" demoDoc h).1,
    (processFile_success_fields demoEnv [104, 105] "a.txt" demoDoc h).2.1⟩

/-! ## Claims about `file_ingestion` -/

/-- **C10.** An upload batch with both lists present never fails: it
returns the element-wise `zip` of the two lists, whose length is the
minimum of the two lengths — surplus entries of the longer list are
silently dropped. -/
theorem ingestMultiple_upload_zips (env : IngestEnv) (filePaths : Option (List String))
    (contents : List ByteSeq) (names : List String) :
    ingestMultipleFiles env .upload filePaths (some contents) (some names) =
      .ok (contents.zip names) ∧
    (contents.zip names).length = min contents.length names.length ∧
    ∀ (i : Nat) (hi : i < (contents.zip names).length),
      (contents.zip names).get ⟨i, hi⟩ =
        ((contents.get ⟨i, by simp at hi; omega⟩), (names.get ⟨i, by simp at hi; omega⟩)) := by
  refine ⟨rfl, List.length_zip contents names, ?_⟩
  intro i hi
  simp [List.getElem_zip]

/-- Reading every path of a batch succeeds when every path exists,
returning one `(bytes, basename)` pair per path in order. -/
theorem gatherPaths_all_exist (env : IngestEnv) (paths : List String)
    (h : ∀ p ∈ paths, (env.readFile p).isSome) :
    gatherPaths env paths =
      .ok (paths.map fun p => ((env.readFile p).getD [], basename p)) := by
  induction paths with
  | nil => rfl
  | cons p rest ih =>
    have hp := h p (by simp)
    cases hc : env.readFile p with
    | none => rw [hc] at hp; cases hp
    | some content =>
      have := ih (fun q hq => h q (by simp [hq]))
      simp [gatherPaths, readFromPath, hc, this]

/-- Reading a batch whose first missing path is `bad` fails with the
not-found error for `bad`, regardless of what follows. -/
theorem gatherPaths_first_missing (env : IngestEnv) (pre : List String) (bad : String)
    (post : List String) (hbad : env.readFile bad = none)
    (hpre : ∀ p ∈ pre, (env.readFile p).isSome) :
    gatherPaths env (pre ++ bad :: post) = .error (.notFound bad) := by
  induction pre with
  | nil => simp [gatherPaths, readFromPath, hbad]
  | cons p rest ih =>
    have hp := hpre p (by simp)
    cases hc : env.readFile p with
    | none => rw [hc] at hp; cases hp
    | some content =>
      have := ih (fun q hq => hpre q (by simp [hq]))
      simp [gatherPaths, readFromPath, hc, this]

/-- **C7.** Path-based batch ingestion is all-or-nothing: an absent path
list fails with the invalid-input error before any item is read; a batch
containing a missing path fails with the not-found error of its first
missing path and returns no partial list; and a batch in which every
path exists returns one result per path. -/
theorem ingestMultiple_path_all_or_nothing (env : IngestEnv) (source : FileSource)
    (fileContents : Option (List ByteSeq)) (fileNames : Option (List String))
    (hsrc : source = .localPath ∨ source = .networkPath) :
    ingestMultipleFiles env source none fileContents fileNames =
      .error (.invalidInput "file_paths é obrigatório") ∧
    (∀ pre bad post, env.readFile bad = none → (∀ p ∈ pre, (env.readFile p).isSome) →
      ingestMultipleFiles env source (some (pre ++ bad :: post)) fileContents fileNames =
        .error (.notFound bad)) ∧
    (∀ paths, (∀ p ∈ paths, (env.readFile p).isSome) →
      ingestMultipleFiles env source (some paths) fileContents fileNames =
        .ok (paths.map fun p => ((env.readFile p).getD [], basename p)) ∧
      (paths.map fun p => ((env.readFile p).getD [], basename p)).length = paths.length) := by
  rcases hsrc with h | h <;> subst h <;>
    refine ⟨rfl, ?_, ?_⟩
  · intro pre bad post hbad hpre
    simpa [ingestMultipleFiles] using gatherPaths_first_missing env pre bad post hbad hpre
  · intro paths hall
    exact ⟨by simpa [ingestMultipleFiles] using gatherPaths_all_exist env paths hall,
      by simp⟩
  · intro pre bad post hbad hpre
    simpa [ingestMultipleFiles] using gatherPaths_first_missing env pre bad post hbad hpre
  · intro paths hall
    exact ⟨by simpa [ingestMultipleFiles] using gatherPaths_all_exist env paths hall,
      by simp⟩

/-- Witness for C7: against a filesystem holding only `"a"` and `"c"`,
the batch `["a", "b", "c"]` fails as a whole with the not-found error
for `"b"`, and an absent path list fails with the invalid-input
error. -/
theorem ingestMultiple_path_all_or_nothing_witness :
    (FileSource.localPath = FileSource.localPath ∨
      FileSource.localPath = FileSource.networkPath) ∧
    ingestMultipleFiles demoIngest .localPath none none none =
      .error (.invalidInput "file_paths é obrigatório") ∧
    ingestMultipleFiles demoIngest .localPath (some ["a", "b", "c"]) none none =
      .error (.notFound "b") := by
  have hsrc : FileSource.localPath = FileSource.localPath ∨
      FileSource.localPath = FileSource.networkPath := Or.inl rfl
  have h := ingestMultiple_path_all_or_nothing demoIngest .localPath none none hsrc
  exact ⟨hsrc, h.1, h.2.1 ["a"] "b" ["c"] (by rfl) (by decide)⟩

/-! ## Claims about `file_storage` -/

/-- The batch-save loop, started from any accumulator, appends exactly
the successfully saved locations in order. -/
theorem saveLoop_filterMap (env : StorageEnv) (destination : StorageDestination)
    (destinationPath bucketName containerName pfx : Option String)
    (files : List (String × String)) (acc : List String) :
    files.foldl
      (fun savedPaths cf =>
        match saveItem env destination destinationPath bucketName containerName pfx cf with
        | .ok path => savedPaths ++ [path]
        | .error _ => savedPaths)
      acc =
    acc ++ files.filterMap
      (fun cf => (saveItem env destination destinationPath bucketName containerName pfx cf).toOption) := by
  induction files generalizing acc with
  | nil => simp
  | cons cf rest ih =>
    cases hs : saveItem env destination destinationPath bucketName containerName pfx cf with
    | ok path => simp [hs, ih, Except.toOption]
    | error e => simp [hs, ih, Except.toOption]

/-- **C3.** `save_multiple_files` never aborts on a per-item failure: it
returns exactly the locations of the items whose save succeeded, in
input order.  In particular, for three pairs of which only the second
one's write fails, the result is exactly the two locations of items 1
and 3. -/
theorem saveMultiple_partial_failure :
    (∀ (env : StorageEnv) (files : List (String × String))
      (destination : StorageDestination)
      (destinationPath bucketName containerName pfx : Option String),
      saveMultipleFiles env files destination destinationPath bucketName containerName pfx =
        files.filterMap
          (fun cf =>
            (saveItem env destination destinationPath bucketName containerName pfx cf).toOption)) ∧
    saveMultipleFiles demoStorage [("x", "a.txt"), ("y", "b.txt"), ("z", "c.txt")]
      .local none none none none = ["/out/a.txt", "/out/c.txt"] := by
  constructor
  · intro env files destination destinationPath bucketName containerName pfx
    unfold saveMultipleFiles
    simpa using saveLoop_filterMap env destination destinationPath bucketName containerName
      pfx files []
  · rfl

/-! ## Claims about `llm_manager` -/

/-- **C6.** Resolving a provider name is idempotent on the gateway
cache: a successful `get_provider` call leaves the cache holding the
returned provider under the lower-cased name, and calling again with
the same name returns the very same provider without touching the cache
(the entry is populated at most once per name); a name outside the
supported set — absent, as every cached name is, from the cache — fails
with the unsupported-provider error. -/
theorem getProvider_idempotent (settings : LLMSettings) (cache : ProviderCache)
    (name : String) (p : Provider) (cache2 : ProviderCache)
    (h : getProvider settings cache name = .ok (p, cache2)) :
    getProvider settings cache2 name = .ok (p, cache2) ∧
    cache2.lookup (String.mk (name.data.map asciiLower)) = some p ∧
    (∀ (settings2 : LLMSettings) (cache3 : ProviderCache) (name2 : String),
      cache3.lookup (String.mk (name2.data.map asciiLower)) = none →
      String.mk (name2.data.map asciiLower) ∉
        (["openai", "anthropic", "ollama", "bedrock"] : List String) →
      getProvider settings2 cache3 name2 =
        .error (.unsupportedProvider (String.mk (name2.data.map asciiLower)))) := by
  have unsupported : ∀ (settings2 : LLMSettings) (cache3 : ProviderCache) (name2 : String),
      cache3.lookup (String.mk (name2.data.map asciiLower)) = none →
      String.mk (name2.data.map asciiLower) ∉
        (["openai", "anthropic", "ollama", "bedrock"] : List String) →
      getProvider settings2 cache3 name2 =
        .error (.unsupportedProvider (String.mk (name2.data.map asciiLower))) := by
    intro settings2 cache3 name2 hl hn
    simp only [List.mem_cons, List.mem_singleton, not_or] at hn
    obtain ⟨h1, h2, h3, h4, _⟩ := hn
    unfold getProvider
    dsimp only
    rw [hl]
    simp [h1, h2, h3, h4]
  have main : getProvider settings cache2 name = .ok (p, cache2) ∧
      cache2.lookup (String.mk (name.data.map asciiLower)) = some p := by
    unfold getProvider at h ⊢
    dsimp only at h ⊢
    cases hl : List.lookup (String.mk (name.data.map asciiLower)) cache with
    | some q =>
      rw [hl] at h
      cases h
      simp [hl]
    | none =>
      rw [hl] at h
      by_cases h1 : String.mk (name.data.map asciiLower) = "openai"
      · rw [if_pos h1] at h
        cases h
        simp [List.lookup, h1]
      · rw [if_neg h1] at h
        by_cases h2 : String.mk (name.data.map asciiLower) = "anthropic"
        · rw [if_pos h2] at h
          cases h
          simp [List.lookup, h1, h2]
        · rw [if_neg h2] at h
          by_cases h3 : String.mk (name.data.map asciiLower) = "ollama"
          · rw [if_pos h3] at h
            cases h
            simp [List.lookup, h1, h2, h3]
          · rw [if_neg h3] at h
            by_cases h4 : String.mk (name.data.map asciiLower) = "bedrock"
            · rw [if_pos h4] at h
              cases h
              simp [List.lookup, h1, h2, h3, h4]
            · rw [if_neg h4] at h
              cases h
  exact ⟨main.1, main.2, unsupported⟩

/-- Witness for C6: on a fresh gateway, `"OpenAI"` resolves to the
OpenAI provider built from the demo settings and is cached under
`"openai"`; resolving `"gemini"` fails. -/
theorem getProvider_idempotent_witness :
    getProvider demoSettings [] "OpenAI" =
      .ok (Provider.openai (some "sk-demo") (some "https://api.openai.com/v1"),
        [("openai", Provider.openai (some "sk-demo") (some "https://api.openai.com/v1"))]) ∧
    getProvider demoSettings
      [("openai", Provider.openai (some "sk-demo") (some "https://api.openai.com/v1"))]
      "OpenAI" =
      .ok (Provider.openai (some "sk-demo") (some "https://api.openai.com/v1"),
        [("openai", Provider.openai (some "sk-demo") (some "https://api.openai.com/v1"))]) ∧
    getProvider demoSettings [] "gemini" = .error (.unsupportedProvider "gemini") := by
  have h : getProvider demoSettings [] "OpenAI" =
      .ok (Provider.openai (some "sk-demo") (some "https://api.openai.com/v1"),
        [("openai", Provider.openai (some "sk-demo") (some "https://api.openai.com/v1"))]) := by
    rfl
  have t := getProvider_idempotent demoSettings [] "OpenAI" _ _ h
  exact ⟨h, t.1, t.2.2 demoSettings [] "gemini" rfl (by decide)⟩

/-- `str.format` passes brace-free text through unchanged, consuming one
unit of fuel per character. -/
theorem formatScan_braceFree_prefix (content : String) (xs : List Char) :
    ∀ (fuel : Nat) (rest : List Char), (∀ c ∈ xs, c ≠ '{' ∧ c ≠ '}') →
    xs.length < fuel →
    formatScan content fuel (xs ++ rest) =
      (formatScan content (fuel - xs.length) rest).map (fun out => xs ++ out) := by
  induction xs with
  | nil =>
    intro fuel rest _ _
    simp
  | cons c xs ih =>
    intro fuel rest hb hf
    obtain ⟨hc1, hc2⟩ := hb c (by simp)
    cases fuel with
    | zero => omega
    | succ f =>
      have harith : f + 1 - (c :: xs).length = f - xs.length := by
        simp
      rw [harith]
      have hxs : ∀ c' ∈ xs, c' ≠ '{' ∧ c' ≠ '}' := fun c' hc' => hb c' (by simp [hc'])
      have hfx : xs.length < f := by simp at hf; omega
      simp only [List.cons_append, formatScan, if_neg hc1, if_neg hc2, List.append_eq]
      rw [ih f rest hxs hfx]
      cases formatScan content (f - xs.length) rest <;> simp

/-- One `str.format` step across the replacement field `{content}`:
substitutes the keyword argument and continues on the remainder. -/
theorem formatScan_subst (content : String) (k : Nat) (b : List Char) :
    formatScan content (k + 1) ('{' :: ("content".data ++ ('}' :: b))) =
      (formatScan content k b).map (fun out => content.data ++ out) := rfl

/-- **C5 (amended).**  Prompt construction in `process_with_llm`:
no template — or an *empty* template, which Python truthiness treats as
absent — yields the default summarize instruction followed by the
content; a non-empty template containing `"{content}"` goes through
Python format substitution of the content (and the resulting prompt is
what reaches the provider), which for a template `a ++ "{content}" ++ b`
with brace-free `a` and `b` is exactly the template with the placeholder
replaced by the content — e.g. `"Summarize: {content}"` with `"X"`
yields `"Summarize: X"`; a non-empty template without the placeholder
yields the template, a `"Documento:"` label and the content. -/
theorem buildPrompt_branches (content t : String) :
    buildPrompt content none = some (defaultPromptFor content) ∧
    buildPrompt content (some "") = some (defaultPromptFor content) ∧
    (t ≠ "" → hasSubstring "{content}".data t.data = true →
      buildPrompt content (some t) = pyFormatContent t content ∧
      processWithLLM id content (some t) = pyFormatContent t content) ∧
    (t ≠ "" → hasSubstring "{content}".data t.data = false →
      buildPrompt content (some t) = some (t ++ "\n\nDocumento:\n" ++ content)) ∧
    (∀ a b : String, (∀ c ∈ a.data, c ≠ '{' ∧ c ≠ '}') →
      (∀ c ∈ b.data, c ≠ '{' ∧ c ≠ '}') →
      pyFormatContent (a ++ "{content}" ++ b) content = some (a ++ content ++ b)) ∧
    pyFormatContent "Summarize: {content}" "X" = some "Summarize: X" := by
  refine ⟨rfl, rfl, ?_, ?_, ?_, by rfl⟩
  · intro ht hsub
    have hb : buildPrompt content (some t) = pyFormatContent t content := by
      simp [buildPrompt, ht, hsub]
    refine ⟨hb, ?_⟩
    unfold processWithLLM
    rw [hb]
    cases pyFormatContent t content <;> simp
  · intro ht hsub
    simp [buildPrompt, ht, hsub]
  · intro a b ha hb
    unfold pyFormatContent
    have hdata : (a ++ "{content}" ++ b).data =
        a.data ++ ('{' :: ("content".data ++ ('}' :: b.data))) := by
      rw [String.data_append, String.data_append, List.append_assoc]
      rfl
    have hstrlen : ∀ s : String, s.length = s.data.length := fun _ => rfl
    have hlen : (a ++ "{content}" ++ b).length + 1 =
        a.data.length + (b.data.length + 10) := by
      rw [String.length_append, String.length_append, hstrlen a, hstrlen b]
      have h9len : ("{content}" : String).length = 9 := rfl
      rw [h9len]
      omega
    rw [hdata, hlen,
      formatScan_braceFree_prefix content a.data (a.data.length + (b.data.length + 10))
        ('{' :: ("content".data ++ ('}' :: b.data))) ha (by omega)]
    have harith : a.data.length + (b.data.length + 10) - a.data.length =
        (b.data.length + 9) + 1 := by omega
    rw [harith, formatScan_subst]
    have hscanb : formatScan content (b.data.length + 9) (b.data ++ []) =
        (formatScan content (b.data.length + 9 - b.data.length) []).map
          (fun out => b.data ++ out) :=
      formatScan_braceFree_prefix content b.data (b.data.length + 9) [] hb (by omega)
    have harith2 : b.data.length + 9 - b.data.length = 8 + 1 := by omega
    rw [harith2] at hscanb
    rw [List.append_nil] at hscanb
    have h9 : formatScan content (8 + 1) ([] : List Char) = some [] := rfl
    rw [h9] at hscanb
    rw [hscanb]
    simp only [Option.map_map, Option.map_some']
    apply congrArg
    apply String.ext
    rw [String.data_append, String.data_append]
    simp

/-- Witness for C5: the claim's own scenario — template
`"Summarize: {content}"` with content `"X"` produces exactly the prompt
`"Summarize: X"` for the provider. -/
theorem buildPrompt_branches_witness :
    ("Summarize: {content}" : String) ≠ "" ∧
    hasSubstring "{content}".data "Summarize: {content}".data = true ∧
    processWithLLM id "X" (some "Summarize: {content}") = some "Summarize: X" := by
  have h1 : ("Summarize: {content}" : String) ≠ "" := by decide
  have h2 : hasSubstring "{content}".data "Summarize: {content}".data = true := by rfl
  have t := ((buildPrompt_branches "X" "Summarize: {content}").2.2.1 h1 h2).2
  refine ⟨h1, h2, ?_⟩
  rw [t]
  rfl

/-- Counterexample to C5 as stated: an empty template is "a template
without the placeholder" yet selects the *default* prompt, not the
template-plus-label form (Python truthiness of `if prompt_template:`);
a template containing `"{content}"` alongside another replacement field
raises (`KeyError`) instead of passing any prompt to the provider; and a
template in which the `"{content}"` occurrence sits inside brace escapes
renders as `"{content}"`, not as the textual replacement `"{X}"`. -/
theorem buildPrompt_claim_counterexample :
    buildPrompt "X" (some "") = some (defaultPromptFor "X") ∧
    defaultPromptFor "X" ≠ "" ++ "\n\nDocumento:\n" ++ "X" ∧
    buildPrompt "X" (some "{content} {x}") = none ∧
    buildPrompt "X" (some "{{content}}") = some "{content}" ∧
    ("{content}" : String) ≠ "{X}" := by
  exact ⟨rfl, by decide, rfl, rfl, by decide⟩

/-! ## Claims about `output_formatter`: the JSON round trip

Helper lemmas first: character-level facts, digit strings, string
escaping, whitespace, then the mutual serialize/parse inversion. -/

/-- Rebuilding a string from its characters is the identity. -/
theorem stringMk_data (s : String) : String.mk s.data = s := by
  cases s
  rfl

/-- `skipWs` drops a leading newline. -/
theorem skipWs_newline (l : List Char) : skipWs ('\n' :: l) = skipWs l := by
  simp [skipWs]

/-- `skipWs` drops leading indentation. -/
theorem skipWs_nspaces (n : Nat) (l : List Char) :
    skipWs (nspaces n ++ l) = skipWs l := by
  induction n with
  | zero => simp [nspaces]
  | succ k ih => simpa [nspaces, List.replicate_succ, skipWs] using ih

/-- `skipWs` keeps a list whose head is not whitespace. -/
theorem skipWs_not_ws (c : Char) (l : List Char)
    (h : ¬(c = ' ' ∨ c = '\n' ∨ c = '\t' ∨ c = '\r')) :
    skipWs (c :: l) = c :: l := by
  simp [skipWs, h]

/-- Hexadecimal digits decode back to their value. -/
theorem hexVal_hexDigit (n : Nat) (h : n < 16) : hexVal (hexDigit n) = some n := by
  interval_cases n <;> rfl

/-- Decimal digits decode back to their value. -/
theorem digitVal_hexDigit (n : Nat) (h : n < 10) : digitVal (hexDigit n) = n := by
  interval_cases n <;> rfl

/-- The characters `hexDigit` produces for values below ten are decimal
digits. -/
theorem hexDigit_isDigit (n : Nat) (h : n < 10) : (hexDigit n).isDigit = true := by
  interval_cases n <;> rfl

/-- Every character of a rendered natural number is a decimal digit. -/
theorem natChars_digits (n : Nat) : ∀ c ∈ natChars n, c.isDigit = true := by
  rw [natChars]
  split
  · intro c hc
    simp at hc
    subst hc
    exact hexDigit_isDigit n (by omega)
  · intro c hc
    simp at hc
    rcases hc with h1 | h2
    · exact natChars_digits (n / 10) c h1
    · subst h2
      exact hexDigit_isDigit _ (by omega)
  termination_by n
  decreasing_by exact Nat.div_lt_self (by omega) (by omega)

/-- A rendered natural number is never empty. -/
theorem natChars_ne_nil (n : Nat) : natChars n ≠ [] := by
  rw [natChars]
  split
  · simp
  · simp

/-- Reading the digits of a rendered natural number left to right
recovers the number. -/
theorem natChars_val (n : Nat) :
    (natChars n).foldl (fun a c => a * 10 + digitVal c) 0 = n := by
  rw [natChars]
  split
  · simp [digitVal_hexDigit n (by omega)]
  · rw [List.foldl_append]
    rw [natChars_val (n / 10)]
    simp [digitVal_hexDigit (n % 10) (by omega)]
    omega
  termination_by n
  decreasing_by exact Nat.div_lt_self (by omega) (by omega)

/-- `takeWhile`/`drop` split an append whose left part satisfies the
predicate and whose right part starts by violating it. -/
theorem takeWhile_all_append (p : Char → Bool) (xs rest : List Char)
    (hxs : ∀ c ∈ xs, p c = true)
    (hrest : ∀ c, rest.head? = some c → p c = false) :
    (xs ++ rest).takeWhile p = xs ∧ (xs ++ rest).drop xs.length = rest := by
  refine ⟨?_, List.drop_left xs rest⟩
  induction xs with
  | nil =>
    cases rest with
    | nil => rfl
    | cons c r => simp [List.takeWhile_cons, hrest c rfl]
  | cons x xs ih =>
    have hx := hxs x (by simp)
    simp [List.takeWhile_cons, hx]
    exact ih (fun c hc => hxs c (by simp [hc]))

/-- Parsing the decimal rendering of `n` followed by a non-digit (or
nothing) yields `n` and leaves the remainder untouched. -/
theorem parseDigits_natChars (n : Nat) (rest : List Char)
    (hrest : ∀ c, rest.head? = some c → c.isDigit = false) :
    parseDigits (natChars n ++ rest) = some (n, rest) := by
  obtain ⟨htake, hdrop⟩ :=
    takeWhile_all_append (fun c => c.isDigit) (natChars n) rest (natChars_digits n) hrest
  unfold parseDigits
  rw [htake]
  dsimp only
  have hne : (natChars n).isEmpty = false := by
    cases h : natChars n with
    | nil => exact absurd h (natChars_ne_nil n)
    | cons a l => rfl
  rw [hne]
  simp only [Bool.false_eq_true, if_false]
  rw [natChars_val n, hdrop]

/-- Unescaping inverts escaping: the escaped rendering of any character
sequence, followed by the closing quote, parses back to exactly that
sequence. -/
theorem parseStringBody_escape (cs : List Char) (rest : List Char) :
    parseStringBody (cs.flatMap escapeChar ++ '\"' :: rest) = some (cs, rest) := by
  induction cs with
  | nil =>
    rw [parseStringBody.eq_def]
    simp
  | cons c cs ih =>
    have hfm : (c :: cs).flatMap escapeChar = escapeChar c ++ cs.flatMap escapeChar := rfl
    rw [hfm, List.append_assoc]
    by_cases h1 : c = '\"'
    · subst h1
      show parseStringBody ('\\' :: '\"' :: (cs.flatMap escapeChar ++ '\"' :: rest)) =
        some ('\"' :: cs, rest)
      rw [parseStringBody.eq_def]
      simp [unescapeShort, ih]
    ·
      by_cases h2 : c = '\\'
      · subst h2
        show parseStringBody ('\\' :: '\\' :: (cs.flatMap escapeChar ++ '\"' :: rest)) =
          some ('\\' :: cs, rest)
        rw [parseStringBody.eq_def]
        simp [unescapeShort, ih]
      ·
        by_cases h3 : c = '\x08'
        · subst h3
          show parseStringBody ('\\' :: 'b' :: (cs.flatMap escapeChar ++ '\"' :: rest)) =
            some ('\x08' :: cs, rest)
          rw [parseStringBody.eq_def]
          simp [unescapeShort, ih]
        ·
          by_cases h4 : c = '\x0c'
          · subst h4
            show parseStringBody ('\\' :: 'f' :: (cs.flatMap escapeChar ++ '\"' :: rest)) =
              some ('\x0c' :: cs, rest)
            rw [parseStringBody.eq_def]
            simp [unescapeShort, ih]
          ·
            by_cases h5 : c = '\n'
            · subst h5
              show parseStringBody ('\\' :: 'n' :: (cs.flatMap escapeChar ++ '\"' :: rest)) =
                some ('\n' :: cs, rest)
              rw [parseStringBody.eq_def]
              simp [unescapeShort, ih]
            ·
              by_cases h6 : c = '\r'
              · subst h6
                show parseStringBody ('\\' :: 'r' :: (cs.flatMap escapeChar ++ '\"' :: rest)) =
                  some ('\r' :: cs, rest)
                rw [parseStringBody.eq_def]
                simp [unescapeShort, ih]
              ·
                by_cases h7 : c = '\t'
                · subst h7
                  show parseStringBody ('\\' :: 't' :: (cs.flatMap escapeChar ++ '\"' :: rest)) =
                    some ('\t' :: cs, rest)
                  rw [parseStringBody.eq_def]
                  simp [unescapeShort, ih]
                ·
                  by_cases h8 : c.toNat < 0x20
                  · have hesc : escapeChar c =
                        ['\\', 'u', '0', '0', hexDigit (c.toNat / 16), hexDigit (c.toNat % 16)] := by
                      simp [escapeChar, h1, h2, h3, h4, h5, h6, h7, h8]
                    rw [hesc]
                    show parseStringBody ('\\' :: 'u' :: '0' :: '0' :: hexDigit (c.toNat / 16) ::
                        hexDigit (c.toNat % 16) :: (cs.flatMap escapeChar ++ '\"' :: rest)) =
                      some (c :: cs, rest)
                    have h0 : hexVal '0' = some 0 := by decide
                    have hv1 := hexVal_hexDigit (c.toNat / 16) (by omega)
                    have hv2 := hexVal_hexDigit (c.toNat % 16) (by omega)
                    rw [parseStringBody.eq_def]
                    simp only [h0, hv1, hv2, ih]
                    have hcp : c.toNat / 16 * 16 + c.toNat % 16 = c.toNat := by
                      omega
                    simp [hcp]
                  · have hesc : escapeChar c = [c] := by
                      simp [escapeChar, h1, h2, h3, h4, h5, h6, h7, h8]
                    rw [hesc]
                    show parseStringBody (c :: (cs.flatMap escapeChar ++ '\"' :: rest)) =
                      some (c :: cs, rest)
                    rw [parseStringBody.eq_def]
                    simp [h1, h2, ih]
/-- A rendered natural number starts with a decimal digit. -/
theorem natChars_head (n : Nat) :
    ∃ c cs, natChars n = c :: cs ∧ c.isDigit = true := by
  cases h : natChars n with
  | nil => exact absurd h (natChars_ne_nil n)
  | cons c cs =>
    exact ⟨c, cs, rfl, natChars_digits n c (by rw [h]; simp)⟩

/-- A decimal digit is none of the characters the JSON parser treats
specially, and is not whitespace. -/
theorem isDigit_ne_special (c : Char) (h : c.isDigit = true) :
    ¬(c = ' ' ∨ c = '\n' ∨ c = '\t' ∨ c = '\r') ∧ c ≠ ']' ∧ c ≠ '}' ∧
    c ≠ '[' ∧ c ≠ '{' ∧ c ≠ '"' ∧ c ≠ 't' ∧ c ≠ 'f' ∧ c ≠ 'n' ∧ c ≠ '-' := by
  have k : ∀ x : Char, x.isDigit = false → c ≠ x := by
    intro x hx e
    subst e
    rw [h] at hx
    cases hx
  have hw : ¬(c = ' ' ∨ c = '\n' ∨ c = '\t' ∨ c = '\r') := by
    rintro (e | e | e | e) <;> exact k _ (by decide) e
  exact ⟨hw, k _ (by decide), k _ (by decide), k _ (by decide), k _ (by decide),
    k _ (by decide), k _ (by decide), k _ (by decide), k _ (by decide), k _ (by decide)⟩

/-- The possible first characters of a serialized JSON value. -/
theorem serJson_head (d : Nat) (v : Json) :
    ∃ c cs, serJson d v = c :: cs ∧
      (c = '[' ∨ c = '{' ∨ c = '"' ∨ c = 't' ∨ c = 'f' ∨ c = 'n' ∨ c = '-' ∨
        c.isDigit = true) := by
  cases v with
  | null => exact ⟨'n', _, by rw [serJson], by simp⟩
  | bool b =>
    cases b with
    | true => exact ⟨'t', _, by rw [serJson], by simp⟩
    | false => exact ⟨'f', _, by rw [serJson], by simp⟩
  | num n =>
    by_cases hn : n < 0
    · exact ⟨'-', _, by rw [serJson]; unfold intChars; rw [if_pos hn], by simp⟩
    · obtain ⟨c, cs, hc, hd⟩ := natChars_head n.natAbs
      refine ⟨c, cs, ?_, by simp [hd]⟩
      rw [serJson]
      unfold intChars
      rw [if_neg hn, hc]
  | str s => exact ⟨'"', _, by rw [serJson]; rfl, by simp⟩
  | arr items =>
    cases items with
    | nil => exact ⟨'[', _, by rw [serJson], by simp⟩
    | cons x xs => exact ⟨'[', _, by rw [serJson], by simp⟩
  | obj members =>
    cases members with
    | nil => exact ⟨'{', _, by rw [serJson], by simp⟩
    | cons m ms => exact ⟨'{', _, by rw [serJson], by simp⟩

/-- A serialized JSON value never starts with whitespace, a closing
bracket, or a closing brace. -/
theorem serJson_head_clean (d : Nat) (v : Json) :
    ∃ c cs, serJson d v = c :: cs ∧
      ¬(c = ' ' ∨ c = '\n' ∨ c = '\t' ∨ c = '\r') ∧ c ≠ ']' ∧ c ≠ '}' := by
  obtain ⟨c, cs, hc, hd⟩ := serJson_head d v
  refine ⟨c, cs, hc, ?_⟩
  rcases hd with e | e | e | e | e | e | e | e
  · subst e; exact ⟨by decide, by decide, by decide⟩
  · subst e; exact ⟨by decide, by decide, by decide⟩
  · subst e; exact ⟨by decide, by decide, by decide⟩
  · subst e; exact ⟨by decide, by decide, by decide⟩
  · subst e; exact ⟨by decide, by decide, by decide⟩
  · subst e; exact ⟨by decide, by decide, by decide⟩
  · subst e; exact ⟨by decide, by decide, by decide⟩
  · obtain ⟨hw, h1, h2, _⟩ := isDigit_ne_special c e
    exact ⟨hw, h1, h2⟩

/-- A rendered integer is nonempty. -/
theorem intChars_length_pos (n : Int) : 0 < (intChars n).length := by
  unfold intChars
  split
  · simp
  · obtain ⟨c, cs, hc, _⟩ := natChars_head n.natAbs
    rw [hc]
    simp

mutual

/-- One unit of fuel per serialized character is enough recursion depth
for a value. -/
theorem jweight_le (d : Nat) (v : Json) : jweight v ≤ (serJson d v).length := by
  cases v with
  | null => rw [jweight, serJson]; simp
  | bool b => cases b <;> (rw [jweight, serJson]; simp)
  | num n => rw [jweight, serJson]; exact intChars_length_pos n
  | str s => rw [jweight, serJson]; unfold serStr; simp
  | arr items =>
    cases items with
    | nil => rw [jweight, serJson]; simp
    | cons x xs =>
      have h := iweight_le d x xs
      rw [jweight, serJson]
      simp
      omega
  | obj members =>
    cases members with
    | nil => rw [jweight, serJson]; simp
    | cons m ms =>
      have h := mweight_le d m ms
      rw [jweight, serJson]
      simp
      omega
  termination_by sizeOf v

/-- Fuel bound for the items of a non-empty array. -/
theorem iweight_le (d : Nat) (x : Json) (xs : List Json) :
    iweight x xs ≤ (serItems d x xs).length := by
  cases xs with
  | nil =>
    have h := jweight_le (d + 1) x
    rw [iweight, serItems]
    simp [nspaces]
    omega
  | cons y ys =>
    have h1 := jweight_le (d + 1) x
    have h2 := iweight_le d y ys
    rw [iweight, serItems]
    simp [nspaces]
    omega
  termination_by sizeOf x + sizeOf xs
  decreasing_by
  all_goals simp
  all_goals omega

/-- Fuel bound for the members of a non-empty object. -/
theorem mweight_le (d : Nat) (m : String × Json) (ms : List (String × Json)) :
    mweight m ms ≤ (serMembers d m ms).length := by
  cases ms with
  | nil =>
    have h := jweight_le (d + 1) m.2
    rw [mweight, serMembers]
    simp [nspaces]
    omega
  | cons m2 ms2 =>
    have h1 := jweight_le (d + 1) m.2
    have h2 := mweight_le d m2 ms2
    rw [mweight, serMembers]
    simp [nspaces]
    omega
  termination_by sizeOf m + sizeOf ms
  decreasing_by
  all_goals simp_wf
  all_goals try subst ms
  all_goals obtain ⟨k, v⟩ := m
  all_goals simp
  all_goals omega

end

/-- A separator tail never starts with a digit. -/
theorem sepTail_noDigit (rest : List Char) (hr : sepTail rest) :
    ∀ c, rest.head? = some c → c.isDigit = false := by
  intro c hc
  cases rest with
  | nil => cases hc
  | cons a l =>
    simp at hc
    subst hc
    simp [sepTail] at hr
    rcases hr with e | e <;> subst e <;> decide

/-- Every JSON value has positive weight. -/
theorem jweight_pos (v : Json) : 1 ≤ jweight v := by
  cases v with
  | null => rw [jweight]
  | bool b => rw [jweight]
  | num n => rw [jweight]
  | str s => rw [jweight]
  | arr items => cases items <;> (rw [jweight]; omega)
  | obj members => cases members <;> (rw [jweight]; omega)

/-- Item lists have positive weight. -/
theorem iweight_pos (x : Json) (xs : List Json) : 1 ≤ iweight x xs := by
  cases xs <;> (rw [iweight]; omega)

/-- Member lists have positive weight. -/
theorem mweight_pos (m : String × Json) (ms : List (String × Json)) : 1 ≤ mweight m ms := by
  cases ms <;> (rw [mweight]; omega)

/-- `skipWs` drops a leading space. -/
theorem skipWs_space (l : List Char) : skipWs (' ' :: l) = skipWs l := by
  simp [skipWs]

/-- `skipWs` keeps a leading comma. -/
theorem skipWs_comma (l : List Char) : skipWs (',' :: l) = ',' :: l := by
  simp [skipWs]

/-- `skipWs` keeps a leading colon. -/
theorem skipWs_colon (l : List Char) : skipWs (':' :: l) = ':' :: l := by
  simp [skipWs]

/-- `skipWs` keeps a leading closing bracket. -/
theorem skipWs_rbracket (l : List Char) : skipWs (']' :: l) = ']' :: l := by
  simp [skipWs]

/-- `skipWs` keeps a leading closing brace. -/
theorem skipWs_rbrace (l : List Char) : skipWs ('}' :: l) = '}' :: l := by
  simp [skipWs]

/-- `skipWs` keeps a serialized value (which never starts with
whitespace). -/
theorem skipWs_serJson (d : Nat) (v : Json) (l : List Char) :
    skipWs (serJson d v ++ l) = serJson d v ++ l := by
  obtain ⟨c, cs, hc, hw, _, _⟩ := serJson_head_clean d v
  rw [hc, List.cons_append]
  exact skipWs_not_ws c _ hw

mutual

/-- Parsing inverts serialization for one value, leaving any trailing
separator untouched. -/
theorem parse_serJson (v : Json) (d fuel : Nat) (rest : List Char)
    (hf : jweight v < fuel) (hr : sepTail rest) :
    parseValue fuel (serJson d v ++ rest) = some (v, rest) := by
  cases fuel with
  | zero => omega
  | succ f =>
    cases v with
    | null =>
      rw [serJson, parseValue.eq_def]
      simp
    | bool b =>
      cases b <;> (rw [serJson, parseValue.eq_def]; simp)
    | num n =>
      rw [serJson]
      unfold intChars
      by_cases hn : n < 0
      · rw [if_pos hn, List.cons_append, parseValue.eq_def]
        simp only [Char.reduceEq, reduceIte]
        rw [parseDigits_natChars n.natAbs rest (sepTail_noDigit rest hr)]
        have hneg : -((n.natAbs : Int)) = n := by omega
        simp only [Option.map_some']
        rw [hneg]
      · rw [if_neg hn]
        obtain ⟨c, cs, hc, hd⟩ := natChars_head n.natAbs
        obtain ⟨hw, hrb, hcb, hlb, hlc, hq, ht, hff, hnn, hmm⟩ := isDigit_ne_special c hd
        rw [hc, List.cons_append, parseValue.eq_def]
        simp only [if_neg hlb, if_neg hlc, if_neg hq, if_neg ht, if_neg hff, if_neg hnn,
          if_neg hmm]
        have hback : c :: (cs ++ rest) = natChars n.natAbs ++ rest := by
          rw [hc]
          rfl
        rw [hback, parseDigits_natChars n.natAbs rest (sepTail_noDigit rest hr)]
        have hpos : ((n.natAbs : Int)) = n := by omega
        simp only [Option.map_some']
        rw [hpos]
    | str s =>
      rw [serJson]
      unfold serStr
      rw [List.cons_append, parseValue.eq_def]
      simp only [Char.reduceEq, reduceIte]
      have harr : (escapeString s ++ ['"']) ++ rest = escapeString s ++ ('"' :: rest) := by
        rw [List.append_assoc]
        rfl
      rw [harr]
      unfold escapeString
      rw [parseStringBody_escape s.data rest]
      simp [stringMk_data]
    | arr items =>
      cases items with
      | nil =>
        rw [serJson, List.cons_append, parseValue.eq_def]
        simp only [List.singleton_append, List.cons_append, List.nil_append,
          Char.reduceEq, reduceIte]
        rw [skipWs_rbracket]
        rw [jweight] at hf
        cases f with
        | zero => omega
        | succ f2 =>
          rw [parseItems.eq_def]
          simp
      | cons x xs =>
        rw [serJson]
        simp only [List.append_assoc, List.cons_append, List.append_nil,
          List.nil_append, List.singleton_append]
        rw [parseValue.eq_def]
        simp only [Char.reduceEq, reduceIte]
        rw [skipWs_newline]
        rw [jweight] at hf
        rw [parse_serItems x xs d f rest (by omega)]
        simp
    | obj members =>
      cases members with
      | nil =>
        rw [serJson, List.cons_append, parseValue.eq_def]
        simp only [List.singleton_append, List.cons_append, List.nil_append,
          Char.reduceEq, reduceIte]
        rw [skipWs_rbrace]
        rw [jweight] at hf
        cases f with
        | zero => omega
        | succ f2 =>
          rw [parseMembers.eq_def]
          simp
      | cons m ms =>
        rw [serJson]
        simp only [List.append_assoc, List.cons_append, List.append_nil,
          List.nil_append, List.singleton_append]
        rw [parseValue.eq_def]
        simp only [Char.reduceEq, reduceIte]
        rw [skipWs_newline]
        rw [jweight] at hf
        rw [parse_serMembers m ms d f rest (by omega)]
        simp
  termination_by sizeOf v

/-- Parsing inverts serialization for the items of a non-empty array,
up to and including the closing bracket. -/
theorem parse_serItems (x : Json) (xs : List Json) (d fuel : Nat) (rest : List Char)
    (hf : iweight x xs < fuel) :
    parseItems fuel (skipWs (serItems d x xs ++ '\n' :: (nspaces (2 * d) ++ ']' :: rest))) =
      some (x :: xs, rest) := by
  have hjx := jweight_pos x
  cases fuel with
  | zero => omega
  | succ g =>
    obtain ⟨c, cs, hc, hw, hrb, hcb⟩ := serJson_head_clean (d + 1) x
    cases xs with
    | nil =>
      rw [iweight] at hf
      rw [serItems]
      simp only [List.append_assoc, List.cons_append, List.append_nil,
        List.nil_append, List.singleton_append]
      rw [skipWs_nspaces, hc, List.cons_append, skipWs_not_ws c _ hw,
        parseItems.eq_def]
      simp only [if_neg hrb]
      have hback : c :: (cs ++ '\n' :: (nspaces (2 * d) ++ ']' :: rest)) =
          serJson (d + 1) x ++ '\n' :: (nspaces (2 * d) ++ ']' :: rest) := by
        rw [hc]
        rfl
      rw [hback,
        parse_serJson x (d + 1) g ('\n' :: (nspaces (2 * d) ++ ']' :: rest)) (by omega)
          (by simp [sepTail])]
      simp [skipWs_newline, skipWs_nspaces, skipWs_rbracket]
    | cons y ys =>
      rw [iweight] at hf
      have hiy := iweight_pos y ys
      rw [serItems]
      simp only [List.append_assoc, List.cons_append, List.append_nil,
        List.nil_append, List.singleton_append]
      rw [skipWs_nspaces, hc, List.cons_append, skipWs_not_ws c _ hw,
        parseItems.eq_def]
      simp only [if_neg hrb]
      have hback : c :: (cs ++ ',' :: '\n' ::
            (serItems d y ys ++ '\n' :: (nspaces (2 * d) ++ ']' :: rest))) =
          serJson (d + 1) x ++ ',' :: '\n' ::
            (serItems d y ys ++ '\n' :: (nspaces (2 * d) ++ ']' :: rest)) := by
        rw [hc]
        rfl
      have hrec := parse_serItems y ys d g rest (by omega)
      rw [hback,
        parse_serJson x (d + 1) g _ (by omega) (by simp [sepTail])]
      simp [skipWs_comma, skipWs_newline, hrec]
  termination_by sizeOf x + sizeOf xs

/-- Parsing inverts serialization for the members of a non-empty
object, up to and including the closing brace. -/
theorem parse_serMembers (m : String × Json) (ms : List (String × Json)) (d fuel : Nat)
    (rest : List Char) (hf : mweight m ms < fuel) :
    parseMembers fuel (skipWs (serMembers d m ms ++ '\n' :: (nspaces (2 * d) ++ '}' :: rest))) =
      some (m :: ms, rest) := by
  have hjv := jweight_pos m.2
  cases fuel with
  | zero => omega
  | succ g =>
    cases ms with
    | nil =>
      rw [mweight] at hf
      rw [serMembers]
      unfold serStr
      simp only [List.append_assoc, List.cons_append, List.append_nil,
        List.nil_append, List.singleton_append]
      rw [skipWs_nspaces, skipWs_not_ws '"' _ (by decide), parseMembers.eq_def]
      simp only [Char.reduceEq, reduceIte]
      unfold escapeString
      have hval := parse_serJson m.2 (d + 1) g ('\n' :: (nspaces (2 * d) ++ '}' :: rest))
        (by omega) (by simp [sepTail])
      rw [parseStringBody_escape m.1.data
        (':' :: ' ' :: (serJson (d + 1) m.2 ++ '\n' :: (nspaces (2 * d) ++ '}' :: rest)))]
      simp [skipWs_colon, skipWs_space, skipWs_serJson, skipWs_newline, skipWs_nspaces,
        skipWs_rbrace, stringMk_data, hval]
    | cons m2 ms2 =>
      rw [mweight] at hf
      have him := mweight_pos m2 ms2
      rw [serMembers]
      unfold serStr
      simp only [List.append_assoc, List.cons_append, List.append_nil,
        List.nil_append, List.singleton_append]
      rw [skipWs_nspaces, skipWs_not_ws '"' _ (by decide), parseMembers.eq_def]
      simp only [Char.reduceEq, reduceIte]
      unfold escapeString
      have hval := parse_serJson m.2 (d + 1) g (',' :: '\n' ::
        (serMembers d m2 ms2 ++ '\n' :: (nspaces (2 * d) ++ '}' :: rest)))
        (by omega) (by simp [sepTail])
      have hrec := parse_serMembers m2 ms2 d g rest (by omega)
      rw [parseStringBody_escape m.1.data
        (':' :: ' ' :: (serJson (d + 1) m.2 ++ ',' :: '\n' ::
          (serMembers d m2 ms2 ++ '\n' :: (nspaces (2 * d) ++ '}' :: rest))))]
      simp [skipWs_colon, skipWs_space, skipWs_serJson, skipWs_newline, skipWs_comma,
        stringMk_data, hval, hrec]
  termination_by sizeOf m + sizeOf ms
  decreasing_by
  all_goals simp_wf
  all_goals try subst ms
  all_goals obtain ⟨k, v⟩ := m
  all_goals simp
  all_goals omega

end

/-- **C2.** The JSON round trip: `format_output(document, "json")`
serializes the document via `json.dumps(..., ensure_ascii=False,
indent=2)`, and parsing that string back yields exactly the serialized
structure — in particular its `content` member is the document's
content and its `metadata` member is the document's metadata, field for
field.   Non-ASCII text is preserved verbatim: the encoder escapes
nothing at or above `0x20` except the quote and the backslash. -/
theorem formatAsJson_roundtrip (env : FormatterEnv) (doc : ProcessedDocument) :
    formatOutput env doc "json" = .ok (formatAsJson doc) ∧
    parseJson (formatAsJson doc) = some (jsonOfDocument doc) ∧
    lookupMember (jsonOfDocument doc) "content" = some (.str doc.content) ∧
    lookupMember (jsonOfDocument doc) "metadata" = some doc.metadata ∧
    (∀ c : Char, 0x20 ≤ c.toNat → c ≠ '"' → c ≠ '\\' → escapeChar c = [c]) := by
  refine ⟨rfl, ?_, rfl, rfl, ?_⟩
  · unfold parseJson formatAsJson
    have hdata : (String.mk (serJson 0 (jsonOfDocument doc))).data =
        serJson 0 (jsonOfDocument doc) := rfl
    have hlen : (String.mk (serJson 0 (jsonOfDocument doc))).length =
        (serJson 0 (jsonOfDocument doc)).length := rfl
    rw [hdata, hlen]
    obtain ⟨c, cs, hc, hw, _, _⟩ := serJson_head_clean 0 (jsonOfDocument doc)
    rw [hc, skipWs_not_ws c _ hw, ← hc]
    have hfuel : jweight (jsonOfDocument doc) <
        (serJson 0 (jsonOfDocument doc)).length + 1 := by
      have := jweight_le 0 (jsonOfDocument doc)
      omega
    have happ : serJson 0 (jsonOfDocument doc) =
        serJson 0 (jsonOfDocument doc) ++ [] := by simp
    nth_rewrite 2 [happ]
    rw [parse_serJson (jsonOfDocument doc) 0 _ [] hfuel trivial]
    rfl
  · intro c h1 h2 h3
    have e3 : c ≠ '\x08' := by
      intro e
      subst e
      exact absurd h1 (by decide)
    have e4 : c ≠ '\x0c' := by
      intro e
      subst e
      exact absurd h1 (by decide)
    have e5 : c ≠ '\n' := by
      intro e
      subst e
      exact absurd h1 (by decide)
    have e6 : c ≠ '\r' := by
      intro e
      subst e
      exact absurd h1 (by decide)
    have e7 : c ≠ '\t' := by
      intro e
      subst e
      exact absurd h1 (by decide)
    have e8 : ¬(c.toNat < 0x20) := by omega
    simp [escapeChar, h2, h3, e3, e4, e5, e6, e7, e8]

end Extract
